import Mathlib

/-
Verification of the EIP-1459 DNS discovery service
(crates/net/dns/src/lib.rs): shallow embedding of the service state and
its operations, followed by theorems about fan-out, caching, tree
lifecycle and the poll loop.
-/

set_option linter.unusedVariables false

namespace DnsDisc

/-- A secp256k1 public key, abstracted to an opaque tag: the claims under
verification never inspect key material. -/
structure PubKey where
  key : Nat
deriving DecidableEq

/-- Link entry: the identity and lookup key of a tree (domain plus public
key), mirroring `tree::LinkEntry`. -/
structure LinkEntry where
  domain : String
  pubkey : PubKey
deriving DecidableEq

/-- Root record of an EIP-1459 tree, mirroring `tree::TreeRootEntry`
(signature material abstracted away: root outcomes delivered to the
service are already verified by the query pool). -/
structure TreeRootEntry where
  enr_root : String
  link_root : String
  sequence_number : Nat
deriving DecidableEq

/-- Modelled from the spec: a transport-layer node record
(`NodeRecordWithForkId`, declared in reth_primitives, outside the
sources); its payload is opaque to the service. -/
structure NodeRecordWithForkId where
  rid : Nat
deriving DecidableEq

/-- Modelled from the spec: an Ethereum Node Record (external `enr`
crate). The `record` field holds the result of the external fallible
conversion to a `NodeRecordWithForkId` (None when the ENR lacks the
required endpoint fields). -/
structure Enr where
  eid : Nat
  record : Option NodeRecordWithForkId
deriving DecidableEq

/-- Conversion failure (`NodeRecordWithForkIdParseError` in
reth_primitives). -/
inductive NodeRecordWithForkIdParseError where
  | convError
deriving DecidableEq

/-- Modelled from the spec: the external `enr.try_into()` conversion used
by `on_resolved_enr`; it fails exactly when the ENR carries no node
record. -/
def enrTryInto (e : Enr) : Except NodeRecordWithForkIdParseError NodeRecordWithForkId :=
  match e.record with
  | some r => Except.ok r
  | none => Except.error NodeRecordWithForkIdParseError.convError

/-- A leaf entry wrapping an ENR, mirroring `tree::NodeEntry`. -/
structure NodeEntry where
  enr : Enr
deriving DecidableEq

/-- A branch entry listing child hashes, mirroring `tree::BranchEntry`. -/
structure BranchEntry where
  children : List String
deriving DecidableEq

/-- The four DNS entry variants, mirroring `tree::DnsEntry`. -/
inductive DnsEntry where
  | root (r : TreeRootEntry)
  | link (l : LinkEntry)
  | branch (b : BranchEntry)
  | node (n : NodeEntry)
deriving DecidableEq

/-- Expected kind of an entry lookup, mirroring `sync::ResolveKind`. -/
inductive ResolveKind where
  | enr
  | link
deriving DecidableEq

/-- Whether a link record is expected, mirroring `ResolveKind::is_link`. -/
def ResolveKind.is_link : ResolveKind → Bool
  | ResolveKind.link => true
  | ResolveKind.enr => false

/-- Action emitted by a sync tree, mirroring `sync::SyncAction`. -/
inductive SyncAction where
  | updateRoot
  | enr (hash : String)
  | link (hash : String)
deriving DecidableEq

/-- Parse failure of an entry (sub-kinds abstracted: the service only
logs them). -/
inductive ParseDnsEntryError where
  | malformed
deriving DecidableEq

/-- Root lookup failure (resolver error, bad signature, ...), opaque to
the service. -/
inductive LookupError where
  | lookupFailed
deriving DecidableEq

deriving instance DecidableEq for Except

/-- Result of an entry lookup, mirroring `query::ResolveEntryResult`. -/
structure ResolveEntryResult where
  entry : Option (Except ParseDnsEntryError DnsEntry)
  link : LinkEntry
  hash : String
  kind : ResolveKind
deriving DecidableEq

/-- Result of a root lookup, mirroring `query::ResolveRootResult`. -/
abbrev ResolveRootResult := Except (LookupError × LinkEntry) (TreeRootEntry × LinkEntry)

/-- Completed query outcome, mirroring `query::QueryOutcome`. -/
inductive QueryOutcome where
  | root (resp : ResolveRootResult)
  | entry (resp : ResolveEntryResult)

/-- Modelled from the spec: the query pool (`query.rs` is not among the
sources), reduced to the enqueue interface the service uses; the claims
under verification concern which lookups are enqueued, not the pool's
rate limiting or deadlines, so the pool state is the two queues of
scheduled lookups. -/
structure QueryPool where
  rootQueries : List LinkEntry
  entryQueries : List (LinkEntry × String × ResolveKind)
deriving DecidableEq

/-- Schedules a root lookup, mirroring `QueryPool::resolve_root`. -/
def QueryPool.resolve_root (q : QueryPool) (link : LinkEntry) : QueryPool :=
  { q with rootQueries := q.rootQueries ++ [link] }

/-- Schedules an entry lookup, mirroring `QueryPool::resolve_entry`. -/
def QueryPool.resolve_entry (q : QueryPool) (link : LinkEntry) (hash : String)
    (kind : ResolveKind) : QueryPool :=
  { q with entryQueries := q.entryQueries ++ [(link, hash, kind)] }

/-- Modelled from the spec: the per-tree synchronization state machine
(`sync.rs` is not among the sources): current root, two cursors of
unresolved hashes, resolved link children, per-epoch seen sets and the
timestamp of the last root fetch (time as a natural number). -/
structure SyncTree where
  root : TreeRootEntry
  link : LinkEntry
  unresolved_links : List String
  unresolved_enrs : List String
  resolved_links : List (String × LinkEntry)
  seen_links : List String
  seen_enrs : List String
  last_root_fetch : Nat
deriving DecidableEq

/-- Modelled from the spec: a fresh tree starts with the two subtree
roots unresolved. -/
def SyncTree.new (root : TreeRootEntry) (link : LinkEntry) (now : Nat) : SyncTree :=
  { root := root
    link := link
    unresolved_links := [root.link_root]
    unresolved_enrs := [root.enr_root]
    resolved_links := []
    seen_links := []
    seen_enrs := []
    last_root_fetch := now }

/-- Modelled from the spec: root replacement. A strictly higher sequence
number replaces the root and resets the cursors; an identical root only
refreshes the fetch timestamp; anything else is rejected as stale. -/
def SyncTree.update_root (t : SyncTree) (newRoot : TreeRootEntry) (now : Nat) : SyncTree :=
  if t.root.sequence_number < newRoot.sequence_number then
    { t with
      root := newRoot
      resolved_links := []
      unresolved_links := [newRoot.link_root]
      unresolved_enrs := [newRoot.enr_root]
      seen_links := []
      seen_enrs := []
      last_root_fetch := now }
  else if newRoot = t.root then { t with last_root_fetch := now }
  else t

/-- Modelled from the spec: tree polling. A due recheck emits
`UpdateRoot` (stamping the fetch time so it fires once per window); then
the link cursor is drained before the ENR cursor; an emitted hash is
recorded in the epoch's seen set. -/
def SyncTree.poll (t : SyncTree) (now recheck : Nat) : Option (SyncAction × SyncTree) :=
  if t.last_root_fetch + recheck ≤ now then
    some (SyncAction.updateRoot, { t with last_root_fetch := now })
  else
    match t.unresolved_links with
    | h :: rest =>
      some (SyncAction.link h,
        { t with unresolved_links := rest, seen_links := h :: t.seen_links })
    | [] =>
      match t.unresolved_enrs with
      | h :: rest =>
        some (SyncAction.enr h,
          { t with unresolved_enrs := rest, seen_enrs := h :: t.seen_enrs })
      | [] => none

/-- Modelled from the spec: branch children extend the matching cursor,
skipping hashes already queued, already emitted this epoch, or (on the
link side) already resolved. -/
def SyncTree.extend_children (t : SyncTree) (kind : ResolveKind)
    (children : List String) : SyncTree :=
  match kind with
  | ResolveKind.link =>
    { t with unresolved_links := t.unresolved_links ++ children.filter (fun h =>
        !(t.seen_links.contains h) && !(t.unresolved_links.contains h)
          && !((t.resolved_links.map Prod.fst).contains h)) }
  | ResolveKind.enr =>
    { t with unresolved_enrs := t.unresolved_enrs ++ children.filter (fun h =>
        !(t.seen_enrs.contains h) && !(t.unresolved_enrs.contains h)) }

/-- Observable event, mirroring `DnsDiscoveryEvent`. -/
inductive DnsDiscoveryEvent where
  | enr (e : Enr)
deriving DecidableEq

/-- Modelled from the spec: the sender half of a bounded subscriber
channel (tokio mpsc): its capacity, the messages currently queued, and
whether the receiver was dropped. -/
structure NodeRecordListener where
  capacity : Nat
  queued : List NodeRecordWithForkId
  closed : Bool
deriving DecidableEq

/-- Outcome of a non-blocking send, mirroring tokio's `try_send` and
`TrySendError`. -/
inductive TrySendResult where
  | ok (l : NodeRecordListener)
  | full
  | closed
deriving DecidableEq

/-- Modelled from the spec: non-blocking send on a bounded channel: fails
with `closed` when the receiver is gone, with `full` at capacity, and
otherwise appends the message. -/
def try_send (l : NodeRecordListener) (r : NodeRecordWithForkId) : TrySendResult :=
  if l.closed then TrySendResult.closed
  else if l.capacity ≤ l.queued.length then TrySendResult.full
  else TrySendResult.ok { l with queued := l.queued ++ [r] }

/-- A listener after a successful delivery of one record. -/
def deliver (l : NodeRecordListener) (r : NodeRecordWithForkId) : NodeRecordListener :=
  { l with queued := l.queued ++ [r] }

/-- Modelled from the spec: lookup in the bounded LRU parse cache
(external schnellru crate), as an association list with the most recently
inserted entry in front; LRU promotion on reads is dropped, the spec
stating the eviction order is irrelevant to correctness. -/
def cacheGet (c : List (String × DnsEntry)) (hash : String) : Option DnsEntry :=
  (c.find? (fun p => p.1 == hash)).map Prod.snd

/-- Modelled from the spec: insertion in the bounded LRU parse cache: the
new binding goes in front, any previous binding of the hash is dropped,
and the least recent entries beyond the capacity are evicted. -/
def cacheInsert (cap : Nat) (c : List (String × DnsEntry)) (hash : String)
    (e : DnsEntry) : List (String × DnsEntry) :=
  ((hash, e) :: c.filter (fun p => !(p.1 == hash))).take cap

/-- The DNS discovery service state, mirroring `DnsDiscoveryService`: the
subscriber list, the tree map (as an association list keyed by
`LinkEntry`), the query pool, the parse cache with its capacity, the
buffered events and the recheck interval. The command channel pair is
represented by feeding the drained commands to the poll loop directly. -/
structure DnsDiscoveryService where
  node_record_listeners : List NodeRecordListener
  trees : List (LinkEntry × SyncTree)
  queries : QueryPool
  dns_record_cache : List (String × DnsEntry)
  cache_capacity : Nat
  queued_events : List DnsDiscoveryEvent
  recheck_interval : Nat
deriving DecidableEq

/-- Lookup of a tree by link, mirroring `HashMap::get`. -/
def lookupTree (ts : List (LinkEntry × SyncTree)) (k : LinkEntry) : Option SyncTree :=
  (ts.find? (fun p => p.1 == k)).map Prod.snd

/-- In-place update of the tree stored under a key, mirroring
`HashMap::get_mut` / `Entry::Occupied`. -/
def updateTreeAt (ts : List (LinkEntry × SyncTree)) (k : LinkEntry)
    (f : SyncTree → SyncTree) : List (LinkEntry × SyncTree) :=
  ts.map (fun p => if p.1 == k then (p.1, f p.2) else p)

/-- The keys of the tree map. -/
def treeKeys (ts : List (LinkEntry × SyncTree)) : List LinkEntry :=
  ts.map Prod.fst

/-- Number of entries stored under a key. -/
def countKey (ts : List (LinkEntry × SyncTree)) (k : LinkEntry) : Nat :=
  (ts.filter (fun p => p.1 == k)).length

/-- `DnsDiscoveryService::notify`: fan the record out to every
subscriber with a lossy non-blocking send, keeping subscribers whose
channel is merely full and dropping those whose channel is closed. -/
def notify (s : DnsDiscoveryService) (record : NodeRecordWithForkId) : DnsDiscoveryService :=
  { s with node_record_listeners := s.node_record_listeners.filterMap (fun l =>
      match try_send l record with
      | TrySendResult.ok l2 => some l2
      | TrySendResult.full => some l
      | TrySendResult.closed => none) }

/-- `DnsDiscoveryService::sync_tree_with_link`: schedule a root lookup. -/
def sync_tree_with_link (s : DnsDiscoveryService) (link : LinkEntry) : DnsDiscoveryService :=
  { s with queries := s.queries.resolve_root link }

/-- `DnsDiscoveryService::node_record_stream`: register a fresh
subscriber channel of capacity 256. -/
def node_record_stream (s : DnsDiscoveryService) : DnsDiscoveryService :=
  { s with node_record_listeners :=
      s.node_record_listeners ++ [{ capacity := 256, queued := [], closed := false }] }

/-- `DnsDiscoveryService::on_resolved_root`: a successful root lookup
upserts the tree (update the stored tree when the link is present,
insert a fresh tree otherwise); a failed lookup is only logged. -/
def on_resolved_root (s : DnsDiscoveryService) (resp : ResolveRootResult)
    (now : Nat) : DnsDiscoveryService :=
  match resp with
  | Except.ok (root, link) =>
    match lookupTree s.trees link with
    | some _ =>
      { s with trees := updateTreeAt s.trees link (fun t => t.update_root root now) }
    | none =>
      { s with trees := s.trees ++ [(link, SyncTree.new root link now)] }
  | Except.error _ => s

/-- `Update::on_resolved_enr` for `DnsDiscoveryService`: convert the ENR,
notify all subscribers of the converted record and buffer one `Enr`
event; a failed conversion is returned to the caller, who only logs it. -/
def on_resolved_enr (s : DnsDiscoveryService) (enr : Enr) :
    DnsDiscoveryService × Option NodeRecordWithForkIdParseError :=
  match enrTryInto enr with
  | Except.error e => (s, some e)
  | Except.ok update =>
    let s1 := notify s update
    ({ s1 with queued_events := s1.queued_events ++ [DnsDiscoveryEvent.enr enr] }, none)

/-- `DnsDiscoveryService::on_resolved_entry`: cache every successfully
parsed entry, then dispatch on the variant and the expected kind; kind
mismatches and unexpected roots are dropped, links schedule the linked
root and are recorded in the owning tree, branches extend the cursor,
ENR leaves are handed to `on_resolved_enr`. -/
def on_resolved_entry (s : DnsDiscoveryService) (resp : ResolveEntryResult) :
    DnsDiscoveryService × Option NodeRecordWithForkIdParseError :=
  match resp.entry with
  | some (Except.error _) => (s, none)
  | none => (s, none)
  | some (Except.ok entry) =>
    let s1 :=
      { s with dns_record_cache := cacheInsert s.cache_capacity s.dns_record_cache resp.hash entry }
    match entry with
    | DnsEntry.root _ => (s1, none)
    | DnsEntry.link link_entry =>
      if resp.kind.is_link then
        let s2 :=
          match lookupTree s1.trees resp.link with
          | some _ =>
            { s1 with trees := updateTreeAt s1.trees resp.link (fun t =>
                { t with resolved_links :=
                    (resp.hash, link_entry) ::
                      t.resolved_links.filter (fun p => !(p.1 == resp.hash)) }) }
          | none => s1
        (sync_tree_with_link s2 link_entry, none)
      else (s1, none)
    | DnsEntry.branch b =>
      (match lookupTree s1.trees resp.link with
       | some _ =>
         { s1 with trees := updateTreeAt s1.trees resp.link (fun t =>
             t.extend_children resp.kind b.children) }
       | none => s1, none)
    | DnsEntry.node n =>
      if resp.kind.is_link then (s1, none)
      else on_resolved_enr s1 n.enr

/-- `DnsDiscoveryService::resolve_entry`: a hash found in the parse cache
is processed immediately as a synthesized successful outcome; otherwise
an entry lookup is enqueued in the pool. -/
def resolve_entry (s : DnsDiscoveryService) (link : LinkEntry) (hash : String)
    (kind : ResolveKind) : DnsDiscoveryService × Option NodeRecordWithForkIdParseError :=
  match cacheGet s.dns_record_cache hash with
  | some entry =>
    on_resolved_entry s { entry := some (Except.ok entry), link := link, hash := hash, kind := kind }
  | none => ({ s with queries := s.queries.resolve_entry link hash kind }, none)

/-- Commands drained from the handle channel, mirroring
`DnsDiscoveryCommand` (the reply channel of `NodeRecordUpdates` is
abstracted away). -/
inductive DnsDiscoveryCommand where
  | syncTree (link : LinkEntry)
  | nodeRecordUpdates
deriving DecidableEq

/-- Command dispatch inside the poll loop. -/
def processCommand (s : DnsDiscoveryService) : DnsDiscoveryCommand → DnsDiscoveryService
  | DnsDiscoveryCommand.syncTree link => sync_tree_with_link s link
  | DnsDiscoveryCommand.nodeRecordUpdates => node_record_stream s

/-- Query outcome dispatch inside the poll loop (an entry error is only
logged). -/
def processOutcome (s : DnsDiscoveryService) (o : QueryOutcome) (now : Nat) :
    DnsDiscoveryService :=
  match o with
  | QueryOutcome.root resp => on_resolved_root s resp now
  | QueryOutcome.entry resp => (on_resolved_entry s resp).1

/-- Drain one tree's actions, mirroring the inner
`while let Some(action) = tree.poll(..)` loop; fuelled for totality. -/
def drainTree (fuel : Nat) (t : SyncTree) (now recheck : Nat) :
    SyncTree × List SyncAction :=
  match fuel with
  | 0 => (t, [])
  | Nat.succ f =>
    match t.poll now recheck with
    | none => (t, [])
    | some (a, t1) =>
      let r := drainTree f t1 now recheck
      (r.1, a :: r.2)

/-- Enough fuel to drain a tree: each poll either pops a cursor hash or
stamps the recheck timer. -/
def treeFuel (t : SyncTree) : Nat :=
  t.unresolved_links.length + t.unresolved_enrs.length + 1

/-- Split a tree's actions into pending resolves and pending root
updates, tagged with the tree's link as in the poll loop. -/
def classifyActions (link : LinkEntry) :
    List SyncAction → List (LinkEntry × String × ResolveKind) × List LinkEntry
  | [] => ([], [])
  | a :: rest =>
    let r := classifyActions link rest
    match a with
    | SyncAction.updateRoot => (r.1, link :: r.2)
    | SyncAction.enr h => ((link, h, ResolveKind.enr) :: r.1, r.2)
    | SyncAction.link h => ((link, h, ResolveKind.link) :: r.1, r.2)

/-- Drain every tree, collecting pending resolves, pending updates and
the progress flag, mirroring the `for tree in self.trees` loop. -/
def drainTrees (now recheck : Nat) :
    List (LinkEntry × SyncTree) →
      List (LinkEntry × SyncTree) ×
        List (LinkEntry × String × ResolveKind) × List LinkEntry × Bool
  | [] => ([], [], [], false)
  | (k, t) :: rest =>
    let d := drainTree (treeFuel t) t now recheck
    let c := classifyActions d.1.link d.2
    let r := drainTrees now recheck rest
    ((k, d.1) :: r.1, c.1 ++ r.2.1, c.2 ++ r.2.2.1, (!d.2.isEmpty) || r.2.2.2)

/-- Submit the pending resolves, mirroring the `for (domain, hash, kind)
in pending_resolves` loop (entry errors only logged). -/
def runResolves (s : DnsDiscoveryService) :
    List (LinkEntry × String × ResolveKind) → DnsDiscoveryService
  | [] => s
  | (l, h, k) :: rest => runResolves (resolve_entry s l h k).1 rest

/-- Submit the pending root refreshes, mirroring the `for link in
pending_updates` loop. -/
def runUpdates (s : DnsDiscoveryService) : List LinkEntry → DnsDiscoveryService
  | [] => s
  | l :: rest => runUpdates (sync_tree_with_link s l) rest

/-- Result of one iteration of the poll loop: yield an event, suspend, or
loop again. -/
inductive PollStep where
  | ready (e : DnsDiscoveryEvent) (s : DnsDiscoveryService)
  | pending (s : DnsDiscoveryService)
  | again (s : DnsDiscoveryService)
deriving DecidableEq

/-- The service state carried by a poll step. -/
def PollStep.state : PollStep → DnsDiscoveryService
  | PollStep.ready _ s => s
  | PollStep.pending s => s
  | PollStep.again s => s

/-- The state after draining the command inbox and the query pool in one
iteration (commands in submission order, outcomes in completion order). -/
def iterInputs (s : DnsDiscoveryService) (cmds : List DnsDiscoveryCommand)
    (outcomes : List QueryOutcome) (now : Nat) : DnsDiscoveryService :=
  outcomes.foldl (fun s1 o => processOutcome s1 o now) (cmds.foldl processCommand s)

/-- The tree-drain result of one iteration; its final component is the
iteration's progress flag. -/
def iterDrain (s : DnsDiscoveryService) (cmds : List DnsDiscoveryCommand)
    (outcomes : List QueryOutcome) (now : Nat) :
    List (LinkEntry × SyncTree) ×
      List (LinkEntry × String × ResolveKind) × List LinkEntry × Bool :=
  drainTrees now (iterInputs s cmds outcomes now).recheck_interval
    (iterInputs s cmds outcomes now).trees

/-- The service state at the end of one iteration's processing: drained
trees stored back, pending resolves submitted (through the cache), then
pending root refreshes submitted. -/
def iterFinal (s : DnsDiscoveryService) (cmds : List DnsDiscoveryCommand)
    (outcomes : List QueryOutcome) (now : Nat) : DnsDiscoveryService :=
  runUpdates
    (runResolves
      { iterInputs s cmds outcomes now with trees := (iterDrain s cmds outcomes now).1 }
      (iterDrain s cmds outcomes now).2.1)
    ((iterDrain s cmds outcomes now).2.2.1)

/-- One iteration of `poll_next`: a buffered event is yielded before
anything else; otherwise commands, outcomes and tree actions are
processed, and the iteration suspends exactly when no tree made progress
and no event got buffered. -/
def pollIteration (s : DnsDiscoveryService) (cmds : List DnsDiscoveryCommand)
    (outcomes : List QueryOutcome) (now : Nat) : PollStep :=
  match s.queued_events with
  | e :: rest => PollStep.ready e { s with queued_events := rest }
  | [] =>
    if !(iterDrain s cmds outcomes now).2.2.2
        && (iterFinal s cmds outcomes now).queued_events.isEmpty then
      PollStep.pending (iterFinal s cmds outcomes now)
    else PollStep.again (iterFinal s cmds outcomes now)

/-! ### Concrete instances used by witnesses and counterexamples -/

/-- A sample link. -/
def linkA : LinkEntry :=
  { domain := "nodes.example.org", pubkey := { key := 1 } }

/-- A second sample link, referenced across trees. -/
def linkB : LinkEntry :=
  { domain := "nodes.other.org", pubkey := { key := 2 } }

/-- A sample tree root. -/
def rootA : TreeRootEntry :=
  { enr_root := "EHASH", link_root := "LHASH", sequence_number := 3 }

/-- A sample node record. -/
def recA : NodeRecordWithForkId := { rid := 5 }

/-- An ENR whose conversion to a node record succeeds. -/
def enrGood : Enr := { eid := 10, record := some { rid := 10 } }

/-- An ENR whose conversion to a node record fails. -/
def enrBad : Enr := { eid := 11, record := none }

/-- The empty query pool. -/
def emptyPool : QueryPool := { rootQueries := [], entryQueries := [] }

/-- An open subscriber with room. -/
def lisOpen : NodeRecordListener := { capacity := 2, queued := [], closed := false }

/-- An open subscriber at capacity. -/
def lisFull : NodeRecordListener := { capacity := 1, queued := [recA], closed := false }

/-- A subscriber whose receiver was dropped. -/
def lisClosed : NodeRecordListener := { capacity := 2, queued := [], closed := true }

/-- A freshly constructed service with no subscribers, trees, queries,
cached records or buffered events. -/
def svc0 : DnsDiscoveryService :=
  { node_record_listeners := []
    trees := []
    queries := emptyPool
    dns_record_cache := []
    cache_capacity := 4
    queued_events := []
    recheck_interval := 10 }

/-- A service with one open, one full and one closed subscriber. -/
def svcListeners : DnsDiscoveryService :=
  { svc0 with node_record_listeners := [lisOpen, lisFull, lisClosed] }

/-- A service whose parse cache holds a link entry under hash `HB`. -/
def svcCacheLink : DnsDiscoveryService :=
  { svc0 with dns_record_cache := [("HB", DnsEntry.link linkB)] }

/-- A service with one buffered event. -/
def svcEvent : DnsDiscoveryService :=
  { svc0 with queued_events := [DnsDiscoveryEvent.enr enrGood] }

/-- The tree grown from `rootA` at `linkA`. -/
def treeA : SyncTree := SyncTree.new rootA linkA 0

/-- A service holding the tree `treeA` under `linkA`. -/
def svcTreeA : DnsDiscoveryService :=
  { svc0 with trees := [(linkA, treeA)] }

/-- A successfully parsed link entry outcome where a link was
expected. -/
def linkResp (link : LinkEntry) (hash : String) (linked : LinkEntry) : ResolveEntryResult :=
  { entry := some (Except.ok (DnsEntry.link linked))
    link := link
    hash := hash
    kind := ResolveKind.link }

/-- A successfully parsed root entry outcome (an unexpected root below
the apex). -/
def respOkRoot : ResolveEntryResult :=
  { entry := some (Except.ok (DnsEntry.root rootA))
    link := linkA
    hash := "HR"
    kind := ResolveKind.enr }

/-! ### Helper lemmas about the tree map -/

/-- Updating a stored tree does not change the key list. -/
theorem treeKeys_updateTreeAt (ts : List (LinkEntry × SyncTree)) (k : LinkEntry)
    (f : SyncTree → SyncTree) : treeKeys (updateTreeAt ts k f) = treeKeys ts := by
  induction ts with
  | nil => rfl
  | cons p rest ih =>
    simp only [updateTreeAt, treeKeys, List.map_cons] at ih ⊢
    cases h : (p.1 == k) with
    | true => simpa [h] using ih
    | false => simpa [h] using ih

/-- Updating a stored tree rewrites exactly the tree found under the
key. -/
theorem lookupTree_updateTreeAt (ts : List (LinkEntry × SyncTree)) (k : LinkEntry)
    (f : SyncTree → SyncTree) :
    lookupTree (updateTreeAt ts k f) k = Option.map f (lookupTree ts k) := by
  induction ts with
  | nil => rfl
  | cons p rest ih =>
    cases h : (p.1 == k) with
    | true => simp [updateTreeAt, lookupTree, List.find?, h]
    | false =>
      simp only [updateTreeAt, lookupTree, List.map_cons, h] at ih ⊢
      simpa [List.find?, h] using ih

/-- Appending a binding for an absent key makes it the stored tree. -/
theorem lookupTree_append_of_none (ts : List (LinkEntry × SyncTree)) (k : LinkEntry)
    (t : SyncTree) (h : lookupTree ts k = none) :
    lookupTree (ts ++ [(k, t)]) k = some t := by
  induction ts with
  | nil => simp [lookupTree, List.find?]
  | cons p rest ih =>
    cases hp : (p.1 == k) with
    | true => simp [lookupTree, List.find?, hp] at h
    | false =>
      have h2 : lookupTree rest k = none := by simpa [lookupTree, List.find?, hp] using h
      simpa [lookupTree, List.find?, hp] using ih h2

/-- Updating a stored tree does not change key multiplicities. -/
theorem countKey_updateTreeAt (ts : List (LinkEntry × SyncTree)) (k k2 : LinkEntry)
    (f : SyncTree → SyncTree) : countKey (updateTreeAt ts k f) k2 = countKey ts k2 := by
  induction ts with
  | nil => rfl
  | cons p rest ih =>
    simp only [updateTreeAt, countKey, List.map_cons] at ih ⊢
    cases h : (p.1 == k) with
    | true =>
      cases h2 : (p.1 == k2) with
      | true => simpa [List.filter, h, h2] using ih
      | false => simpa [List.filter, h, h2] using ih
    | false =>
      cases h2 : (p.1 == k2) with
      | true => simpa [List.filter, h, h2] using ih
      | false => simpa [List.filter, h, h2] using ih

/-- Appending a binding for a key adds one to its multiplicity. -/
theorem countKey_append (ts : List (LinkEntry × SyncTree)) (k : LinkEntry) (t : SyncTree) :
    countKey (ts ++ [(k, t)]) k = countKey ts k + 1 := by
  simp [countKey, List.filter_append]

/-- A key is absent exactly when its multiplicity is zero. -/
theorem lookupTree_none_iff_countKey (ts : List (LinkEntry × SyncTree)) (k : LinkEntry) :
    lookupTree ts k = none ↔ countKey ts k = 0 := by
  induction ts with
  | nil => simp [lookupTree, countKey]
  | cons p rest ih =>
    cases h : (p.1 == k) with
    | true => simp [lookupTree, countKey, List.find?, List.filter, h]
    | false =>
      simp only [lookupTree, countKey, List.find?, List.filter, h] at ih ⊢
      exact ih

/-! ### Projection lemmas about the service operations -/

/-- `on_resolved_enr` only touches the subscriber list and the event
buffer. -/
theorem on_resolved_enr_preserves (s : DnsDiscoveryService) (e : Enr) :
    ((on_resolved_enr s e).1).trees = s.trees ∧
    ((on_resolved_enr s e).1).queries = s.queries ∧
    ((on_resolved_enr s e).1).dns_record_cache = s.dns_record_cache := by
  cases h : enrTryInto e <;> simp [on_resolved_enr, h, notify]

/-- `on_resolved_entry` never enqueues an entry lookup. -/
theorem entryQueries_on_resolved_entry (s : DnsDiscoveryService) (resp : ResolveEntryResult) :
    ((on_resolved_entry s resp).1).queries.entryQueries = s.queries.entryQueries := by
  obtain ⟨entry, link, hash, kind⟩ := resp
  cases entry with
  | none => rfl
  | some r =>
    cases r with
    | error e => rfl
    | ok e =>
      cases e with
      | root r => rfl
      | link l =>
        cases kind with
        | enr => rfl
        | link =>
          simp only [on_resolved_entry, ResolveKind.is_link]
          cases h : lookupTree s.trees link <;>
            simp [h, sync_tree_with_link, QueryPool.resolve_root]
      | branch b =>
        simp only [on_resolved_entry]
        cases h : lookupTree s.trees link <;> simp [h]
      | node n =>
        cases kind with
        | link => rfl
        | enr =>
          simp only [on_resolved_entry, ResolveKind.is_link]
          cases h : enrTryInto n.enr <;> simp [on_resolved_enr, h, notify]

/-- `on_resolved_entry` never changes the key list of the tree map. -/
theorem treeKeys_on_resolved_entry (s : DnsDiscoveryService) (resp : ResolveEntryResult) :
    treeKeys ((on_resolved_entry s resp).1).trees = treeKeys s.trees := by
  obtain ⟨entry, link, hash, kind⟩ := resp
  cases entry with
  | none => rfl
  | some r =>
    cases r with
    | error e => rfl
    | ok e =>
      cases e with
      | root r => rfl
      | link l =>
        cases kind with
        | enr => rfl
        | link =>
          simp only [on_resolved_entry, ResolveKind.is_link]
          cases h : lookupTree s.trees link <;>
            simp [h, sync_tree_with_link, treeKeys_updateTreeAt]
      | branch b =>
        simp only [on_resolved_entry]
        cases h : lookupTree s.trees link <;> simp [h, treeKeys_updateTreeAt]
      | node n =>
        cases kind with
        | link => rfl
        | enr =>
          simp only [on_resolved_entry, ResolveKind.is_link]
          cases h : enrTryInto n.enr <;> simp [on_resolved_enr, h, notify]

/-- `on_resolved_entry` caches every successfully parsed entry,
whatever its variant and the expected kind. -/
theorem cache_on_resolved_entry_ok (s : DnsDiscoveryService) (resp : ResolveEntryResult)
    (e : DnsEntry) (h : resp.entry = some (Except.ok e)) :
    ((on_resolved_entry s resp).1).dns_record_cache
      = cacheInsert s.cache_capacity s.dns_record_cache resp.hash e := by
  obtain ⟨entry, link, hash, kind⟩ := resp
  simp only at h
  subst h
  cases e with
  | root r => rfl
  | link l =>
    cases kind with
    | enr => rfl
    | link =>
      simp only [on_resolved_entry, ResolveKind.is_link]
      cases h : lookupTree s.trees link <;> simp [h, sync_tree_with_link]
  | branch b =>
    simp only [on_resolved_entry]
    cases h : lookupTree s.trees link <;> simp [h]
  | node n =>
    cases kind with
    | link => rfl
    | enr =>
      simp only [on_resolved_entry, ResolveKind.is_link]
      cases h : enrTryInto n.enr <;> simp [on_resolved_enr, h, notify]

/-- `resolve_entry` never changes the key list of the tree map. -/
theorem treeKeys_resolve_entry (s : DnsDiscoveryService) (l : LinkEntry) (h : String)
    (k : ResolveKind) : treeKeys ((resolve_entry s l h k).1).trees = treeKeys s.trees := by
  cases hc : cacheGet s.dns_record_cache h with
  | some e => simp [resolve_entry, hc, treeKeys_on_resolved_entry]
  | none => simp [resolve_entry, hc]

/-- Command processing never touches the tree map. -/
theorem trees_processCommand (s : DnsDiscoveryService) (c : DnsDiscoveryCommand) :
    (processCommand s c).trees = s.trees := by
  cases c <;> rfl

/-- Draining the command inbox never touches the tree map. -/
theorem trees_foldl_processCommand (cmds : List DnsDiscoveryCommand)
    (s : DnsDiscoveryService) : (cmds.foldl processCommand s).trees = s.trees := by
  induction cmds generalizing s with
  | nil => rfl
  | cons c rest ih => rw [List.foldl_cons, ih, trees_processCommand]

/-- A root outcome never removes a key from the tree map. -/
theorem treeKeys_mono_on_resolved_root (s : DnsDiscoveryService) (resp : ResolveRootResult)
    (now : Nat) (k : LinkEntry) (hk : k ∈ treeKeys s.trees) :
    k ∈ treeKeys (on_resolved_root s resp now).trees := by
  cases resp with
  | error e => simpa [on_resolved_root] using hk
  | ok p =>
    obtain ⟨root, link⟩ := p
    cases h : lookupTree s.trees link with
    | some t =>
      simpa [on_resolved_root, h, treeKeys_updateTreeAt] using hk
    | none =>
      simp only [on_resolved_root, h, treeKeys, List.map_append, List.mem_append]
      exact Or.inl hk

/-- An outcome never removes a key from the tree map. -/
theorem treeKeys_processOutcome_mono (s : DnsDiscoveryService) (o : QueryOutcome)
    (now : Nat) (k : LinkEntry) (hk : k ∈ treeKeys s.trees) :
    k ∈ treeKeys (processOutcome s o now).trees := by
  cases o with
  | root resp => exact treeKeys_mono_on_resolved_root s resp now k hk
  | entry resp => simpa [processOutcome, treeKeys_on_resolved_entry] using hk

/-- Draining the query pool never removes a key from the tree map. -/
theorem treeKeys_foldl_processOutcome_mono (outcomes : List QueryOutcome)
    (s : DnsDiscoveryService) (now : Nat) (k : LinkEntry) (hk : k ∈ treeKeys s.trees) :
    k ∈ treeKeys ((outcomes.foldl (fun s1 o => processOutcome s1 o now) s)).trees := by
  induction outcomes generalizing s with
  | nil => exact hk
  | cons o rest ih =>
    rw [List.foldl_cons]
    exact ih _ (treeKeys_processOutcome_mono s o now k hk)

/-- Submitting root refreshes never touches the tree map. -/
theorem trees_runUpdates (ls : List LinkEntry) (s : DnsDiscoveryService) :
    (runUpdates s ls).trees = s.trees := by
  induction ls generalizing s with
  | nil => rfl
  | cons l rest ih => rw [runUpdates, ih]; rfl

/-- Submitting pending resolves never changes the key list. -/
theorem treeKeys_runResolves (rs : List (LinkEntry × String × ResolveKind))
    (s : DnsDiscoveryService) : treeKeys (runResolves s rs).trees = treeKeys s.trees := by
  induction rs generalizing s with
  | nil => rfl
  | cons p rest ih =>
    obtain ⟨l, h, k⟩ := p
    rw [runResolves, ih, treeKeys_resolve_entry]

/-- Draining the trees preserves the key list. -/
theorem treeKeys_drainTrees (ts : List (LinkEntry × SyncTree)) (now recheck : Nat) :
    treeKeys (drainTrees now recheck ts).1 = treeKeys ts := by
  induction ts with
  | nil => rfl
  | cons p rest ih =>
    obtain ⟨k, t⟩ := p
    simp only [drainTrees, treeKeys, List.map_cons]
    simp only [treeKeys] at ih
    rw [ih]

/-- The end-of-iteration state never loses a key from the tree map. -/
theorem treeKeys_iterFinal_mono (s : DnsDiscoveryService)
    (cmds : List DnsDiscoveryCommand) (outcomes : List QueryOutcome) (now : Nat)
    (k : LinkEntry) (hk : k ∈ treeKeys s.trees) :
    k ∈ treeKeys (iterFinal s cmds outcomes now).trees := by
  have hk2 : k ∈ treeKeys (iterInputs s cmds outcomes now).trees := by
    unfold iterInputs
    exact treeKeys_foldl_processOutcome_mono _ _ _ _
      (by rw [trees_foldl_processCommand]; exact hk)
  simp only [iterFinal, trees_runUpdates, treeKeys_runResolves, iterDrain]
  simpa [treeKeys_drainTrees] using hk2

/-- One poll iteration never removes a key from the tree map. -/
theorem treeKeys_pollIteration_mono (s : DnsDiscoveryService)
    (cmds : List DnsDiscoveryCommand) (outcomes : List QueryOutcome) (now : Nat)
    (k : LinkEntry) (hk : k ∈ treeKeys s.trees) :
    k ∈ treeKeys (pollIteration s cmds outcomes now).state.trees := by
  cases hq : s.queued_events with
  | cons e rest => simpa [pollIteration, hq, PollStep.state] using hk
  | nil =>
    simp only [pollIteration, hq]
    split
    · exact treeKeys_iterFinal_mono s cmds outcomes now k hk
    · exact treeKeys_iterFinal_mono s cmds outcomes now k hk

/-- Under the map invariant (at most one binding per key), a successful
root outcome leaves exactly one binding for its link. -/
theorem countKey_on_resolved_root_ok (s : DnsDiscoveryService) (root : TreeRootEntry)
    (link : LinkEntry) (now : Nat) (h : countKey s.trees link ≤ 1) :
    countKey (on_resolved_root s (Except.ok (root, link)) now).trees link = 1 := by
  cases hl : lookupTree s.trees link with
  | some t =>
    have h0 : countKey s.trees link ≠ 0 := by
      intro h0
      rw [← lookupTree_none_iff_countKey] at h0
      rw [h0] at hl
      cases hl
    simp only [on_resolved_root, hl, countKey_updateTreeAt]
    omega
  | none =>
    have h0 : countKey s.trees link = 0 := (lookupTree_none_iff_countKey _ _).mp hl
    simp [on_resolved_root, hl, countKey_append, h0]

/-- Processing a stream of successful root outcomes for one link keeps
exactly one binding for it. -/
theorem countKey_foldl_roots (rs : List TreeRootEntry) (s : DnsDiscoveryService)
    (link : LinkEntry) (now : Nat) (h : countKey s.trees link = 1) :
    countKey ((rs.foldl (fun acc r => on_resolved_root acc (Except.ok (r, link)) now) s).trees)
      link = 1 := by
  induction rs generalizing s with
  | nil => exact h
  | cons r rest ih =>
    rw [List.foldl_cons]
    exact ih _ (countKey_on_resolved_root_ok _ _ _ _ (by omega))

/-! ### Claim theorems -/

/-- C1: fan-out to subscribers is lossy and non-blocking. `notify` is a
total function of the state (it cannot block or fail), it touches no
state besides the subscriber list, every open-but-full subscriber is
retained unchanged (the record is dropped for it), every closed
subscriber is removed, every open subscriber with room is retained with
the record delivered, and every surviving subscriber stems from a
non-closed one. -/
theorem notify_fanout_lossy_nonblocking (s : DnsDiscoveryService) (r : NodeRecordWithForkId) :
    ((notify s r).trees = s.trees ∧ (notify s r).queries = s.queries ∧
      (notify s r).dns_record_cache = s.dns_record_cache ∧
      (notify s r).queued_events = s.queued_events) ∧
    (∀ l : NodeRecordListener, l.closed = true → l ∉ (notify s r).node_record_listeners) ∧
    (∀ l ∈ s.node_record_listeners, l.closed = false → l.capacity ≤ l.queued.length →
      l ∈ (notify s r).node_record_listeners) ∧
    (∀ l ∈ s.node_record_listeners, l.closed = false → l.queued.length < l.capacity →
      deliver l r ∈ (notify s r).node_record_listeners) ∧
    (∀ l2 ∈ (notify s r).node_record_listeners,
      ∃ l ∈ s.node_record_listeners, l.closed = false ∧ (l2 = l ∨ l2 = deliver l r)) := by
  have origin : ∀ l2 ∈ (notify s r).node_record_listeners,
      ∃ l ∈ s.node_record_listeners, l.closed = false ∧ (l2 = l ∨ l2 = deliver l r) := by
    intro l2 h2
    simp only [notify, List.mem_filterMap] at h2
    obtain ⟨a, ha, hf⟩ := h2
    by_cases hc : a.closed = true
    · simp [try_send, hc] at hf
    · have hc2 : a.closed = false := by
        cases hcl : a.closed
        · rfl
        · exact absurd hcl hc
      by_cases hcap : a.capacity ≤ a.queued.length
      · refine ⟨a, ha, hc2, Or.inl ?_⟩
        simp [try_send, hc2, hcap] at hf
        exact hf.symm
      · refine ⟨a, ha, hc2, Or.inr ?_⟩
        simp [try_send, hc2, hcap] at hf
        simp only [deliver, hc2]
        exact hf.symm
  refine ⟨⟨rfl, rfl, rfl, rfl⟩, ?_, ?_, ?_, origin⟩
  · intro l hl hmem
    obtain ⟨a, ha, hc, hor⟩ := origin l hmem
    cases hor with
    | inl h =>
      rw [h] at hl
      rw [hc] at hl
      cases hl
    | inr h =>
      rw [h] at hl
      simp only [deliver] at hl
      rw [hc] at hl
      cases hl
  · intro l hl hc hcap
    simp only [notify, List.mem_filterMap]
    refine ⟨l, hl, ?_⟩
    simp [try_send, hc, hcap]
  · intro l hl hc hcap
    simp only [notify, List.mem_filterMap]
    refine ⟨l, hl, ?_⟩
    have hnc : ¬ l.capacity ≤ l.queued.length := by omega
    simp [try_send, deliver, hc, hnc]

/-- C1 witness: with one open, one full and one closed subscriber, the
full one is retained, the open one receives the record and the closed
one is removed. -/
theorem notify_fanout_witness :
    lisFull ∈ (notify svcListeners recA).node_record_listeners ∧
    deliver lisOpen recA ∈ (notify svcListeners recA).node_record_listeners ∧
    lisClosed ∉ (notify svcListeners recA).node_record_listeners :=
  ⟨(notify_fanout_lossy_nonblocking svcListeners recA).2.2.1 lisFull (by decide) (by decide)
      (by decide),
    (notify_fanout_lossy_nonblocking svcListeners recA).2.2.2.1 lisOpen (by decide) (by decide)
      (by decide),
    (notify_fanout_lossy_nonblocking svcListeners recA).2.1 lisClosed (by decide)⟩

/-- C4: a failed root lookup never fails the service and leaves the
whole state unchanged: the tree map, the parse cache and the event queue
are exactly as before. -/
theorem failed_root_lookup_noop (s : DnsDiscoveryService) (err : LookupError)
    (link : LinkEntry) (now : Nat) :
    on_resolved_root s (Except.error (err, link)) now = s ∧
    (on_resolved_root s (Except.error (err, link)) now).trees = s.trees ∧
    (on_resolved_root s (Except.error (err, link)) now).dns_record_cache
      = s.dns_record_cache ∧
    (on_resolved_root s (Except.error (err, link)) now).queued_events = s.queued_events :=
  ⟨rfl, rfl, rfl, rfl⟩

/-- C8: for a resolved ENR leaf, a successful conversion notifies all
subscribers of the converted record and buffers exactly one `Enr` event;
a failed conversion returns the error to the caller with the state
untouched (no subscriber notified, no event buffered). -/
theorem on_resolved_enr_spec (s : DnsDiscoveryService) (enr : Enr) :
    (∀ rec, enrTryInto enr = Except.ok rec →
      on_resolved_enr s enr =
        ({ notify s rec with
            queued_events := s.queued_events ++ [DnsDiscoveryEvent.enr enr] }, none)) ∧
    (∀ err, enrTryInto enr = Except.error err →
      on_resolved_enr s enr = (s, some err)) := by
  constructor
  · intro rec h
    simp [on_resolved_enr, h, notify]
  · intro err h
    simp [on_resolved_enr, h]

/-- C8 witness: a convertible ENR fans out and buffers one event; a
non-convertible one returns the conversion error with the state
untouched. -/
theorem on_resolved_enr_witness :
    on_resolved_enr svcListeners enrGood =
      ({ notify svcListeners { rid := 10 } with
          queued_events := svcListeners.queued_events ++ [DnsDiscoveryEvent.enr enrGood] },
        none) ∧
    on_resolved_enr svc0 enrBad = (svc0, some NodeRecordWithForkIdParseError.convError) :=
  ⟨(on_resolved_enr_spec svcListeners enrGood).1 { rid := 10 } rfl,
    (on_resolved_enr_spec svc0 enrBad).2 NodeRecordWithForkIdParseError.convError rfl⟩

/-- C5: every resolved entry outcome carrying a successfully parsed
entry inserts (hash -> entry) into the parse cache, whatever the variant
and the expected kind; outcomes carrying no entry or a parse error leave
the service (hence the cache) untouched. -/
theorem parse_cache_updated_on_success (s : DnsDiscoveryService) (resp : ResolveEntryResult) :
    (∀ e, resp.entry = some (Except.ok e) →
      ((on_resolved_entry s resp).1).dns_record_cache
          = cacheInsert s.cache_capacity s.dns_record_cache resp.hash e ∧
        (1 ≤ s.cache_capacity →
          cacheGet ((on_resolved_entry s resp).1).dns_record_cache resp.hash = some e)) ∧
    (resp.entry = none → on_resolved_entry s resp = (s, none)) ∧
    (∀ err, resp.entry = some (Except.error err) → on_resolved_entry s resp = (s, none)) := by
  refine ⟨?_, ?_, ?_⟩
  · intro e he
    have hc := cache_on_resolved_entry_ok s resp e he
    refine ⟨hc, ?_⟩
    intro hcap
    rw [hc]
    cases hcp : s.cache_capacity with
    | zero => omega
    | succ m => simp [cacheInsert, cacheGet, List.find?]
  · intro he
    obtain ⟨entry, l, h, k⟩ := resp
    simp only at he
    subst he
    rfl
  · intro err he
    obtain ⟨entry, l, h, k⟩ := resp
    simp only at he
    subst he
    rfl

/-- C5 witness: an unexpected root entry is still cached under its hash
and can be read back. -/
theorem parse_cache_witness :
    ((on_resolved_entry svc0 respOkRoot).1).dns_record_cache
        = cacheInsert svc0.cache_capacity svc0.dns_record_cache respOkRoot.hash
            (DnsEntry.root rootA) ∧
      cacheGet ((on_resolved_entry svc0 respOkRoot).1).dns_record_cache respOkRoot.hash
        = some (DnsEntry.root rootA) := by
  have h := (parse_cache_updated_on_success svc0 respOkRoot).1 (DnsEntry.root rootA) rfl
  exact ⟨h.1, h.2 (by decide)⟩

/-- C6: kind mismatches are dropped, not treated as failures: an
unexpected root, a link where an ENR was expected, and an ENR leaf where
a link was expected each return without error and change nothing except
the cache insertion. -/
theorem kind_mismatch_dropped (s : DnsDiscoveryService) (resp : ResolveEntryResult)
    (e : DnsEntry) (he : resp.entry = some (Except.ok e)) :
    (∀ r, e = DnsEntry.root r →
      on_resolved_entry s resp =
        ({ s with dns_record_cache :=
            cacheInsert s.cache_capacity s.dns_record_cache resp.hash e }, none)) ∧
    (∀ l, e = DnsEntry.link l → resp.kind = ResolveKind.enr →
      on_resolved_entry s resp =
        ({ s with dns_record_cache :=
            cacheInsert s.cache_capacity s.dns_record_cache resp.hash e }, none)) ∧
    (∀ n, e = DnsEntry.node n → resp.kind = ResolveKind.link →
      on_resolved_entry s resp =
        ({ s with dns_record_cache :=
            cacheInsert s.cache_capacity s.dns_record_cache resp.hash e }, none)) := by
  obtain ⟨entry, link, hash, kind⟩ := resp
  simp only at he
  subst he
  refine ⟨?_, ?_, ?_⟩
  · intro r hr
    subst hr
    rfl
  · intro l hl hk
    subst hl
    subst hk
    rfl
  · intro n hn hk
    subst hn
    subst hk
    rfl

/-- C6 witness: an unexpected root below the apex only feeds the cache
and reports success. -/
theorem kind_mismatch_witness :
    on_resolved_entry svc0 respOkRoot =
      ({ svc0 with dns_record_cache :=
          (cacheInsert svc0.cache_capacity svc0.dns_record_cache respOkRoot.hash
            (DnsEntry.root rootA)) }, none) :=
  (kind_mismatch_dropped svc0 respOkRoot (DnsEntry.root rootA) rfl).1 rootA rfl

/-- C2 counterexample: with a link entry cached under hash `HB` and a
link expected, `resolve_entry` hits the cache and nevertheless enqueues
a pool query (the root lookup of the linked tree), refuting "enqueues no
query in the pool" as stated. -/
theorem resolve_entry_cache_hit_counterexample :
    cacheGet svcCacheLink.dns_record_cache "HB" = some (DnsEntry.link linkB) ∧
    ((resolve_entry svcCacheLink linkA "HB" ResolveKind.link).1).queries.rootQueries
      = [linkB] := by
  constructor
  · rfl
  · rfl

/-- C2 (amended): a cache hit processes the cached entry immediately as
a synthesized successful outcome and enqueues no ENTRY query for that
lookup (though processing the cached entry can itself schedule a root
query); a cache miss enqueues exactly one pool entry query for
(link, hash, kind) and changes nothing else. -/
theorem resolve_entry_cache_spec (s : DnsDiscoveryService) (link : LinkEntry)
    (hash : String) (kind : ResolveKind) :
    (∀ e, cacheGet s.dns_record_cache hash = some e →
      resolve_entry s link hash kind
          = on_resolved_entry s
              { entry := some (Except.ok e), link := link, hash := hash, kind := kind } ∧
        ((resolve_entry s link hash kind).1).queries.entryQueries
          = s.queries.entryQueries) ∧
    (cacheGet s.dns_record_cache hash = none →
      resolve_entry s link hash kind
          = ({ s with queries := s.queries.resolve_entry link hash kind }, none) ∧
        ((resolve_entry s link hash kind).1).queries.entryQueries
          = s.queries.entryQueries ++ [(link, hash, kind)]) := by
  constructor
  · intro e he
    have h1 : resolve_entry s link hash kind
        = on_resolved_entry s
            { entry := some (Except.ok e), link := link, hash := hash, kind := kind } := by
      simp [resolve_entry, he]
    refine ⟨h1, ?_⟩
    rw [h1]
    exact entryQueries_on_resolved_entry _ _
  · intro he
    have h1 : resolve_entry s link hash kind
        = ({ s with queries := s.queries.resolve_entry link hash kind }, none) := by
      simp [resolve_entry, he]
    refine ⟨h1, ?_⟩
    rw [h1]
    rfl

/-- C2 witness: a cache hit submits no entry query; a cache miss
enqueues exactly one. -/
theorem resolve_entry_cache_witness :
    ((resolve_entry svcCacheLink linkA "HB" ResolveKind.enr).1).queries.entryQueries
        = svcCacheLink.queries.entryQueries ∧
      resolve_entry svc0 linkA "H0" ResolveKind.enr
        = ({ svc0 with queries := svc0.queries.resolve_entry linkA "H0" ResolveKind.enr },
            none) :=
  ⟨((resolve_entry_cache_spec svcCacheLink linkA "HB" ResolveKind.enr).1
      (DnsEntry.link linkB) rfl).2,
    ((resolve_entry_cache_spec svc0 linkA "H0" ResolveKind.enr).2 rfl).1⟩

/-- C10: a resolved link entry where a link was expected reports
success, records (hash -> linked) in the owning tree's resolved links
when that tree exists, schedules exactly one root resolution for the
linked tree, creates no tree now; the referenced tree appears once that
root resolution succeeds. -/
theorem resolved_link_schedules_linked_root (s : DnsDiscoveryService) (link : LinkEntry)
    (hash : String) (linked : LinkEntry) :
    (on_resolved_entry s (linkResp link hash linked)).2 = none ∧
    ((on_resolved_entry s (linkResp link hash linked)).1).queries.rootQueries
      = s.queries.rootQueries ++ [linked] ∧
    treeKeys ((on_resolved_entry s (linkResp link hash linked)).1).trees
      = treeKeys s.trees ∧
    (∀ t, lookupTree s.trees link = some t →
      lookupTree ((on_resolved_entry s (linkResp link hash linked)).1).trees link
        = some { t with resolved_links :=
            (hash, linked) :: t.resolved_links.filter (fun p => !(p.1 == hash)) }) ∧
    (∀ s2 : DnsDiscoveryService, ∀ r : TreeRootEntry, ∀ now2 : Nat,
      lookupTree s2.trees linked = none →
      lookupTree (on_resolved_root s2 (Except.ok (r, linked)) now2).trees linked
        = some (SyncTree.new r linked now2)) := by
  refine ⟨?_, ?_, treeKeys_on_resolved_entry s (linkResp link hash linked), ?_, ?_⟩
  · cases hl : lookupTree s.trees link <;>
      simp [on_resolved_entry, linkResp, ResolveKind.is_link, hl, sync_tree_with_link]
  · cases hl : lookupTree s.trees link <;>
      simp [on_resolved_entry, linkResp, ResolveKind.is_link, hl, sync_tree_with_link,
        QueryPool.resolve_root]
  · intro t ht
    simp [on_resolved_entry, linkResp, ResolveKind.is_link, ht, sync_tree_with_link,
      lookupTree_updateTreeAt]
  · intro s2 r now2 hn
    simp only [on_resolved_root, hn]
    exact lookupTree_append_of_none _ _ _ hn

/-- C10 witness: with the tree `treeA` present under `linkA`, resolving
a link leaf records the linked entry and schedules its root. -/
theorem resolved_link_witness :
    lookupTree ((on_resolved_entry svcTreeA (linkResp linkA "HL" linkB)).1).trees linkA
      = some { treeA with resolved_links :=
          ("HL", linkB) :: treeA.resolved_links.filter (fun p => !(p.1 == "HL")) } :=
  (resolved_link_schedules_linked_root svcTreeA linkA "HL" linkB).2.2.2.1 treeA (by decide)

/-- C3: a successful root outcome upserts the tree map (insert when the
link is absent, in-place root update when present, with the key list
unchanged); every other service operation leaves the key list unchanged,
a failed root outcome changes nothing, and a poll iteration never
removes a key; hence trees are created only by successful root
resolutions and never removed. -/
theorem root_upsert_tree_lifecycle (s : DnsDiscoveryService) (root : TreeRootEntry)
    (link : LinkEntry) (now : Nat) :
    (lookupTree s.trees link = none →
      (on_resolved_root s (Except.ok (root, link)) now).trees
        = s.trees ++ [(link, SyncTree.new root link now)]) ∧
    (∀ t, lookupTree s.trees link = some t →
      (on_resolved_root s (Except.ok (root, link)) now).trees
          = updateTreeAt s.trees link (fun u => u.update_root root now) ∧
        treeKeys (on_resolved_root s (Except.ok (root, link)) now).trees
          = treeKeys s.trees) ∧
    (∀ r, (notify s r).trees = s.trees) ∧
    (∀ l, (sync_tree_with_link s l).trees = s.trees) ∧
    ((node_record_stream s).trees = s.trees) ∧
    (∀ e, ((on_resolved_enr s e).1).trees = s.trees) ∧
    (∀ resp, treeKeys ((on_resolved_entry s resp).1).trees = treeKeys s.trees) ∧
    (∀ l h k, treeKeys ((resolve_entry s l h k).1).trees = treeKeys s.trees) ∧
    (∀ err l2, (on_resolved_root s (Except.error (err, l2)) now).trees = s.trees) ∧
    (∀ cmds outcomes now2 k, k ∈ treeKeys s.trees →
      k ∈ treeKeys (pollIteration s cmds outcomes now2).state.trees) := by
  refine ⟨?_, ?_, fun r => rfl, fun l => rfl, rfl, fun e => (on_resolved_enr_preserves s e).1,
    treeKeys_on_resolved_entry s, treeKeys_resolve_entry s, fun err l2 => rfl,
    fun cmds outcomes now2 k hk => treeKeys_pollIteration_mono s cmds outcomes now2 k hk⟩
  · intro hn
    simp [on_resolved_root, hn]
  · intro t ht
    constructor
    · simp [on_resolved_root, ht]
    · simp [on_resolved_root, ht, treeKeys_updateTreeAt]

/-- C3 witness: the first successful root resolution at `linkA` inserts
the fresh tree. -/
theorem root_upsert_witness :
    (on_resolved_root svc0 (Except.ok (rootA, linkA)) 0).trees
      = svc0.trees ++ [(linkA, SyncTree.new rootA linkA 0)] :=
  (root_upsert_tree_lifecycle svc0 rootA linkA 0).1 rfl

/-- C9: `sync_tree_with_link` only enqueues a root resolution (the tree
map is untouched, even when issued twice for the same link), and
processing any positive number of successful root outcomes for the same
link leaves exactly one tree map entry for it. -/
theorem sync_tree_idempotent (s : DnsDiscoveryService) (link : LinkEntry)
    (rs : List TreeRootEntry) (now : Nat) (h : countKey s.trees link ≤ 1) :
    sync_tree_with_link s link = { s with queries := s.queries.resolve_root link } ∧
    (sync_tree_with_link (sync_tree_with_link s link) link).trees = s.trees ∧
    (sync_tree_with_link (sync_tree_with_link s link) link).queries.rootQueries
      = s.queries.rootQueries ++ [link, link] ∧
    (rs ≠ [] →
      countKey
        ((rs.foldl (fun acc r => on_resolved_root acc (Except.ok (r, link)) now) s).trees)
        link = 1) := by
  refine ⟨rfl, rfl, ?_, ?_⟩
  · simp [sync_tree_with_link, QueryPool.resolve_root]
  · intro hne
    cases rs with
    | nil => exact absurd rfl hne
    | cons r rest =>
      rw [List.foldl_cons]
      exact countKey_foldl_roots rest _ link now (countKey_on_resolved_root_ok s r link now h)

/-- C9 witness: one successful root outcome for `linkA` on the fresh
service yields exactly one map entry. -/
theorem sync_tree_idempotent_witness :
    countKey
      ((([rootA] : List TreeRootEntry).foldl
        (fun acc r => on_resolved_root acc (Except.ok (r, linkA)) 0) svc0).trees) linkA = 1 :=
  (sync_tree_idempotent svc0 linkA [rootA] 0 (by decide)).2.2.2 (by simp)

/-- C7: in every poll iteration, a non-empty event buffer yields its
front event before any command, outcome or tree action is processed
(the state changes only by popping the event); and the iteration returns
Pending only when its tree drain made no progress and the final event
buffer is empty. -/
theorem poll_iteration_order (s : DnsDiscoveryService) (cmds : List DnsDiscoveryCommand)
    (outcomes : List QueryOutcome) (now : Nat) :
    (∀ e rest, s.queued_events = e :: rest →
      pollIteration s cmds outcomes now
        = PollStep.ready e { s with queued_events := rest }) ∧
    (∀ s2, pollIteration s cmds outcomes now = PollStep.pending s2 →
      (iterDrain s cmds outcomes now).2.2.2 = false ∧ s2.queued_events = []) := by
  constructor
  · intro e rest h
    simp [pollIteration, h]
  · intro s2 h
    cases hq : s.queued_events with
    | cons e rest => simp [pollIteration, hq] at h
    | nil =>
      simp only [pollIteration, hq] at h
      by_cases hcond : (!(iterDrain s cmds outcomes now).2.2.2
          && (iterFinal s cmds outcomes now).queued_events.isEmpty) = true
      · rw [if_pos hcond] at h
        injection h with h5
        subst h5
        rw [Bool.and_eq_true] at hcond
        obtain ⟨h1, h2⟩ := hcond
        constructor
        · rwa [Bool.not_eq_true'] at h1
        · rwa [List.isEmpty_iff] at h2
      · rw [if_neg hcond] at h
        exact PollStep.noConfusion h

/-- C7 witness: with one buffered event, the iteration yields it
immediately, leaving the rest of the state alone. -/
theorem poll_iteration_witness :
    pollIteration svcEvent [] [] 0
      = PollStep.ready (DnsDiscoveryEvent.enr enrGood) { svcEvent with queued_events := [] } :=
  (poll_iteration_order svcEvent [] [] 0).1 (DnsDiscoveryEvent.enr enrGood) [] rfl

end DnsDisc
